import Mathlib

/-!
Verification development for the shell-session execution service
(`src/agents/bash-tools.ts`): a shallow embedding of the executor's
settlement machine, the exit classification, the PTY fallback, the
`process` controller actions, and the log-slicing helper, together with
theorems checking the specification's claims against them.

Text is represented as `List Char` (the JS string contents); JS `number`
indices are represented as `Int` (callers pass integers; the code floors
and clamps them).
-/

namespace OpenClawBash

/-! ### Text helpers (JS `trim`, `trimEnd`) -/

/-- Whitespace characters recognised by JS `String.prototype.trim` that can
occur in shell output (space, tab, LF, CR, vertical tab, form feed). -/
def isJsWhitespace (c : Char) : Bool :=
  c == ' ' || c == '\t' || c == '\n' || c == '\r' || c == '\x0b' || c == '\x0c'

/-- JS `trimEnd`: drop trailing whitespace. -/
def trimEndChars (l : List Char) : List Char :=
  (l.reverse.dropWhile isJsWhitespace).reverse

/-- JS `trim`: drop leading and trailing whitespace. -/
def trimChars (l : List Char) : List Char :=
  trimEndChars (l.dropWhile isJsWhitespace)

/-! ### Line normalization and splitting (`sliceLogLines`, bash-tools.ts 937-963) -/

/-- `text.replace(/\r\n/g, "\n")`: left-to-right, non-overlapping replacement
of each CRLF pair by a single LF. -/
def normalizeCRLF : List Char → List Char
  | [] => []
  | [c] => [c]
  | c :: d :: rest =>
    if c = '\r' ∧ d = '\n' then '\n' :: normalizeCRLF rest
    else c :: normalizeCRLF (d :: rest)

/-- JS `str.split("\n")`: the list of segments between LF separators; an
empty string yields one empty segment. -/
def splitOnLF : List Char → List (List Char)
  | [] => [[]]
  | c :: rest =>
    if c = '\n' then [] :: splitOnLF rest
    else
      match splitOnLF rest with
      | [] => [[c]]
      | l :: ls => (c :: l) :: ls

/-- JS `lines.join("\n")`. -/
def joinLF : List (List Char) → List Char
  | [] => []
  | [l] => l
  | l :: l' :: ls => l ++ '\n' :: joinLF (l' :: ls)

/-- `if (lines.length > 0 && lines[lines.length - 1] === "") lines.pop()`:
drop a final empty segment when present. -/
def dropFinalEmpty (ls : List (List Char)) : List (List Char) :=
  if ls.getLast? = some [] then ls.dropLast else ls

/-- The line list `sliceLogLines` computes from the raw aggregated text:
normalize CRLF, split on LF, drop one final empty segment. -/
def logLines (text : List Char) : List (List Char) :=
  dropFinalEmpty (splitOnLF (normalizeCRLF text))

/-- Remove one trailing LF when present (what rejoining the line list
amounts to on the normalized text). -/
def dropTrailingLF (s : List Char) : List Char :=
  if s.getLast? = some '\n' then s.dropLast else s

/-- The last `k` elements of a list. -/
def lastN (l : List (List Char)) (k : Nat) : List (List Char) :=
  l.drop (l.length - k)

/-- `take` bounded by an optional limit: all elements when absent. -/
def takeOpt (l : List (List Char)) (limit : Option Int) : List (List Char) :=
  match limit with
  | some k => l.take k.toNat
  | none => l

/-- Return shape of `sliceLogLines`. -/
structure LogSlice where
  slice : List Char
  totalLines : Nat
  totalChars : Nat
deriving DecidableEq

/-- `sliceLogLines(text, offset, limit)` (bash-tools.ts 937-963): slice the
aggregated text by line.  `offset` and `limit` are integers (the source
floors and clamps them to naturals; `Int.toNat` performs the same clamp).
When `offset` is absent and `limit` is present the start index becomes
`totalLines - limit` (a tail view); the end index is `start + limit` when
`limit` is present and unbounded otherwise. -/
def sliceLogLines (text : List Char) (offset limit : Option Int) : LogSlice :=
  if text = [] then ⟨[], 0, 0⟩
  else
    let lines := logLines text
    let totalLines := lines.length
    let totalChars := text.length
    let start : Nat :=
      match offset, limit with
      | none, some l => totalLines - l.toNat
      | some o, _ => o.toNat
      | none, none => 0
    let sliced : List (List Char) :=
      match limit with
      | some l => (lines.drop start).take l.toNat
      | none => lines.drop start
    ⟨joinLF sliced, totalLines, totalChars⟩

/-! ### Exit classification and failure messages (`handleExit`, bash-tools.ts 348-399) -/

/-- A process exit signal as delivered to `handleExit`: a signal name
(`NodeJS.Signals`, from the pipe transport) or a signal number (from the
PTY transport). -/
inductive ExitSig
  | name (s : String)
  | num (n : Int)
deriving DecidableEq

/-- How a signal value renders in a template string. -/
def sigRender : ExitSig → List Char
  | .name s => s.toList
  | .num n => (toString n).toList

/-- JS truthiness of an exit-signal value: `null`/`undefined`, the empty
string and the number `0` are falsy. -/
def sigTruthy : Option ExitSig → Bool
  | none => false
  | some (.name s) => !(s == "")
  | some (.num n) => !(n == 0)

/-- `const wasSignal = exitSignal != null`. -/
def wasSignal (sig : Option ExitSig) : Bool :=
  sig.isSome

/-- `const isSuccess = code === 0 && !wasSignal && !signal?.aborted && !timedOut`. -/
def isSuccess (code : Option Int) (sig : Option ExitSig) (aborted timedOut : Bool) : Bool :=
  (code == some 0) && !(wasSignal sig) && !aborted && !timedOut

/-- Session status recorded in the registry. -/
inductive Status
  | running
  | completed
  | failed
deriving DecidableEq

/-- `const status = isSuccess ? "completed" : "failed"`. -/
def exitStatus (code : Option Int) (sig : Option ExitSig) (aborted timedOut : Bool) : Status :=
  if isSuccess code sig aborted timedOut then .completed else .failed

/-- Failure reason when the timeout fired. -/
def timeoutReason (t : Int) : List Char :=
  "Command timed out after ".toList ++ (toString t).toList ++ " seconds".toList

/-- Failure reason for a (truthy) death-by-signal. -/
def signalReason (g : ExitSig) : List Char :=
  "Command aborted by signal ".toList ++ sigRender g

/-- Failure reason when no exit code was captured. -/
def abortedReason : List Char :=
  "Command aborted before exit code was captured".toList

/-- Failure reason for a non-zero exit code. -/
def exitCodeReason (c : Int) : List Char :=
  "Command exited with code ".toList ++ (toString c).toList

/-- The exit-code leg of the reason chain: `code === null ? aborted-msg :
exited-with-code-msg`. -/
def codeFallback : Option Int → List Char
  | none => abortedReason
  | some c => exitCodeReason c

/-- The full reason chain of `handleExit`:
`timedOut ? timeout-msg : wasSignal && exitSignal ? signal-msg : code === null ? aborted-msg : exit-code-msg`. -/
def failureReason (timedOut : Bool) (t : Int) (code : Option Int) (sig : Option ExitSig) :
    List Char :=
  if timedOut then timeoutReason t
  else
    match sig with
    | some g => if sigTruthy (some g) then signalReason g else codeFallback code
    | none => codeFallback code

/-- `const message = aggregated ? aggregated + "\n\n" + reason : reason`
(with `aggregated` already trimmed). -/
def failMessage (aggTrimmed reason : List Char) : List Char :=
  if aggTrimmed = [] then reason else aggTrimmed ++ "\n\n".toList ++ reason

/-- The resolve-success payload text: optional warning prefix followed by
the trimmed aggregated output, or `"(no output)"` when empty. -/
def successText (warning : Option (List Char)) (aggTrimmed : List Char) : List Char :=
  (match warning with
   | some w => w ++ "\n\n".toList
   | none => []) ++
  (if aggTrimmed = [] then "(no output)".toList else aggTrimmed)

/-! ### PTY startup and fallback (bash-tools.ts 169-205, 892-904) -/

/-- The two stdin transports. -/
inductive StdinMode
  | pipe
  | pty
deriving DecidableEq

/-- `formatPtyError`: a falsy error (absent, or with an empty display text)
renders as the empty string, otherwise as a parenthesized detail.  The
error is embedded as its display text (the string itself, or the first
line of an `Error` message). -/
def formatPtyError : Option (List Char) → List Char
  | none => []
  | some m => if m = [] then [] else " (".toList ++ m ++ ")".toList

/-- The transport-selection phase of `createBashTool.execute`
(bash-tools.ts 169-205): for a requested `pty` mode, a failed backend load
or a throwing `ptyModule.spawn` records a warning and falls back to
`pipe`; the executor then spawns a piped child exactly when the resulting
mode is `pipe`.  Returns the actually-used mode and the warning. -/
def ptyStartup (requested : StdinMode) (loadOk : Bool) (loadErr : Option (List Char))
    (spawnOk : Bool) (spawnErr : Option (List Char)) : StdinMode × Option (List Char) :=
  match requested with
  | .pipe => (.pipe, none)
  | .pty =>
    if !loadOk then
      (.pipe, some ("Warning: node-pty failed to load".toList ++ formatPtyError loadErr ++
        "; falling back to pipe mode.".toList))
    else if !spawnOk then
      (.pipe, some ("Warning: node-pty failed to start".toList ++ formatPtyError spawnErr ++
        "; falling back to pipe mode.".toList))
    else (.pty, none)

/-- `p` is a prefix of `l`. -/
def startsWithText (p l : List Char) : Prop :=
  ∃ t, p ++ t = l

/-- `m` occurs contiguously inside `l`. -/
def containsText (m l : List Char) : Prop :=
  ∃ a b, a ++ m ++ b = l

/-! ### The executor settlement machine (bash-tools.ts 230-420)

The `execute` closure of the bash tool reacts to five kinds of events: the
yield timer firing (or the immediate-background path), the timeout timer
firing, the external abort signal, an output chunk arriving, and process
exit.  `settle` guards the promise so at most one of resolve-running,
resolve-success and reject-failure runs. -/

/-- A terminal settlement of the tool call. -/
inductive Settlement
  | running
  | success (text : List Char)
  | failure (message : List Char)
deriving DecidableEq

/-- Events the executor reacts to. -/
inductive ExecEvent
  | yieldFire
  | timeoutFire
  | abortFire
  | data (chunk : List Char)
  | exit (code : Option Int) (sig : Option ExitSig)
deriving DecidableEq

/-- The executor's per-invocation mutable state (`settled`, `yielded`,
`timedOut`, the session's `backgrounded`/`exited`/`aggregated`/status
fields, the abort signal's `aborted` flag) plus the per-invocation
constants `warning` and `effectiveTimeout`. -/
structure ExecState where
  settled : Bool
  yielded : Bool
  backgrounded : Bool
  timedOut : Bool
  aborted : Bool
  exited : Bool
  aggregated : List Char
  status : Option Status
  warning : Option (List Char)
  effectiveTimeout : Int
deriving DecidableEq

/-- One event of the executor race (bash-tools.ts 230-420):
  * yield timer / `onYieldNow`: if not settled, mark backgrounded and
    resolve-running;
  * timeout timer: set `timedOut` and invoke the abort path (kill; the
    settlement comes from the later exit event);
  * external abort: the signal becomes aborted and the abort path kills;
  * data: sanitized chunks are appended while the process has not exited;
  * exit (`handleExit`): record the exit status; if already backgrounded
    the caller was already answered; otherwise settle with the trimmed
    output on success or with the prioritized failure message. -/
def step (s : ExecState) : ExecEvent → ExecState × Option Settlement
  | .yieldFire =>
    if s.settled then (s, none)
    else ({ s with yielded := true, backgrounded := true, settled := true }, some .running)
  | .timeoutFire => ({ s with timedOut := true }, none)
  | .abortFire => ({ s with aborted := true }, none)
  | .data c =>
    if s.exited then (s, none)
    else ({ s with aggregated := s.aggregated ++ c }, none)
  | .exit code sig =>
    let st := exitStatus code sig s.aborted s.timedOut
    let s' := { s with exited := true, status := some st }
    if s.yielded || s.backgrounded then (s', none)
    else if s.settled then (s', none)
    else
      let agg := trimChars s.aggregated
      if isSuccess code sig s.aborted s.timedOut then
        ({ s' with settled := true }, some (.success (successText s.warning agg)))
      else
        ({ s' with settled := true },
          some (.failure (failMessage agg
            (failureReason s.timedOut s.effectiveTimeout code sig))))

/-- Run a sequence of events, collecting every settlement that fires. -/
def runEvents (s : ExecState) : List ExecEvent → ExecState × List Settlement
  | [] => (s, [])
  | e :: es =>
    let p := step s e
    let q := runEvents p.1 es
    (q.1, p.2.toList ++ q.2)

/-- The executor state right after session creation (bash-tools.ts 207-258):
nothing settled, not yielded, session not backgrounded, no abort, no
timeout, empty output. -/
def execInit (warning : Option (List Char)) (effectiveTimeout : Int) : ExecState :=
  { settled := false, yielded := false, backgrounded := false, timedOut := false,
    aborted := false, exited := false, aggregated := [], status := none,
    warning := warning, effectiveTimeout := effectiveTimeout }

/-- Events that can settle a fresh call: the yield path and process exit. -/
def isTerminalEv : ExecEvent → Bool
  | .yieldFire => true
  | .exit _ _ => true
  | _ => false

/-! ### Session registry

The registry implementation (`bash-process-registry.js`) is not under
src/; its operations are modelled from the spec (section 4.2). -/

/-- A live session as stored in the registry (the fields the controller
reads; transport handles are abstracted into `hasPid` and `stdinMode`). -/
structure Session where
  id : String
  command : List Char
  stdinMode : StdinMode
  hasPid : Bool
  startedAt : Int
  aggregated : List Char
  tail : List Char
  pendingStdout : List (List Char)
  pendingStderr : List (List Char)
  truncated : Bool
  backgrounded : Bool
  exited : Bool
  exitCode : Option Int
  exitSignal : Option ExitSig
deriving DecidableEq

/-- A finished session retained after exit. -/
structure FinishedSession where
  id : String
  command : List Char
  aggregated : List Char
  tail : List Char
  truncated : Bool
  startedAt : Int
  endedAt : Int
  exitCode : Option Int
  exitSignal : Option ExitSig
  status : Status
deriving DecidableEq

/-- Modelled from the spec: `bash-process-registry.js` is not under src/.
The registry is the process-wide pair of the live set and the bounded
finished store (spec section 4.2). -/
structure Registry where
  live : List Session
  finished : List FinishedSession
deriving DecidableEq

/-- Modelled from the spec: `getSession` of `bash-process-registry.js`
(not under src/) — lookup by id in the live set, `undefined` when absent. -/
def getSession (reg : Registry) (id : String) : Option Session :=
  reg.live.find? (fun s => s.id == id)

/-- Modelled from the spec: `getFinishedSession` of
`bash-process-registry.js` (not under src/) — lookup by id in the
finished store. -/
def getFinishedSession (reg : Registry) (id : String) : Option FinishedSession :=
  reg.finished.find? (fun f => f.id == id)

/-- Modelled from the spec: `deleteSession` of `bash-process-registry.js`
(not under src/) — "removes from either set" (spec section 4.2). -/
def deleteSession (reg : Registry) (id : String) : Registry :=
  { live := reg.live.filter (fun s => !(s.id == id)),
    finished := reg.finished.filter (fun f => !(f.id == id)) }

/-- The finished record built from a live session when it is marked
exited. -/
def finishOf (s : Session) (now : Int) (code : Option Int) (sig : Option ExitSig)
    (st : Status) : FinishedSession :=
  { id := s.id, command := s.command, aggregated := s.aggregated, tail := s.tail,
    truncated := s.truncated, startedAt := s.startedAt, endedAt := now,
    exitCode := code, exitSignal := sig, status := st }

/-- Modelled from the spec: `markExited` of `bash-process-registry.js`
(not under src/) — "first call sets `endedAt = now` and moves the session
from live to finished. Subsequent calls update status fields but do not
re-move" (spec section 4.2). -/
def markExited (reg : Registry) (id : String) (now : Int) (code : Option Int)
    (sig : Option ExitSig) (st : Status) : Registry :=
  match getSession reg id with
  | some s =>
    { live := reg.live.filter (fun t => !(t.id == id)),
      finished := finishOf s now code sig st :: reg.finished }
  | none =>
    { reg with
      finished := reg.finished.map (fun f =>
        if f.id == id then { f with exitCode := code, exitSignal := sig, status := st }
        else f) }

/-- Replace the live session with the given id. -/
def updateLive (reg : Registry) (id : String) (s : Session) : Registry :=
  { reg with live := reg.live.map (fun t => if t.id == id then s else t) }

/-! ### The `process` controller (bash-tools.ts 443-869) -/

/-- The observable outcome of a `process` action: the content text and the
`details` fields the claims mention. -/
structure ProcResult where
  text : List Char
  status : Status
  totalLines : Option Nat := none
  totalChars : Option Nat := none
  exitCode : Option Int := none
deriving DecidableEq

/-- OS-level side effects of the kill paths. -/
inductive Effect
  | killTree
  | ptyKill
deriving DecidableEq

/-- `killSession` (bash-tools.ts 873-890): kill the process tree when a
pid is known; in pty mode additionally invoke the PTY's own kill. -/
def killSessionEffects (s : Session) : List Effect :=
  (if s.hasPid then [Effect.killTree] else []) ++
  (if s.stdinMode = .pty then [Effect.ptyKill] else [])

/-- `"Session ${id} is not backgrounded."` -/
def notBackgroundedText (id : String) : List Char :=
  ("Session " ++ id ++ " is not backgrounded.").toList

/-- `"No session found for ${id}"` -/
def noSessionText (id : String) : List Char :=
  ("No session found for " ++ id).toList

/-- `"Removed session ${id}."` -/
def removedText (id : String) : List Char :=
  ("Removed session " ++ id ++ ".").toList

/-- The `"\n\nProcess exited with ..."` suffix of the poll texts: a truthy
exit signal renders as `signal X`, otherwise `code N`. -/
def exitedWithText (sig : Option ExitSig) (code : Int) : List Char :=
  "\n\nProcess exited with ".toList ++
  (match sig with
   | some g => if sigTruthy (some g) then "signal ".toList ++ sigRender g
               else "code ".toList ++ (toString code).toList
   | none => "code ".toList ++ (toString code).toList) ++
  ".".toList

/-- The text of a `poll` on a finished session (bash-tools.ts 530-555). -/
def pollFinishedText (f : FinishedSession) : List Char :=
  (if f.tail = [] then
    ("(no output recorded".toList ++
      (if f.truncated then " — truncated to cap".toList else []) ++ ")".toList)
   else f.tail) ++
  exitedWithText f.exitSignal (f.exitCode.getD 0)

/-- `[stdout.trimEnd(), stderr.trimEnd()].filter(Boolean).join("\n").trim()`. -/
def pollOutput (stdout stderr : List Char) : List Char :=
  let a := trimEndChars stdout
  let b := trimEndChars stderr
  trimChars (if a = [] then b else if b = [] then a else a ++ '\n' :: b)

/-- The `poll` action (bash-tools.ts 528-622).  Returns the result and the
updated registry.  On a live backgrounded session it drains the pending
buffers, re-records the exit when the process has exited, and reports
running/exit state; a live non-backgrounded session is a failure with the
registry untouched. -/
def pollAction (reg : Registry) (id : String) (now : Int) : ProcResult × Registry :=
  match getSession reg id with
  | none =>
    match getFinishedSession reg id with
    | some f =>
      ({ text := pollFinishedText f,
         status := if f.status = .completed then .completed else .failed,
         exitCode := f.exitCode }, reg)
    | none => ({ text := noSessionText id, status := .failed }, reg)
  | some s =>
    if !s.backgrounded then
      ({ text := notBackgroundedText id, status := .failed }, reg)
    else
      let stdout := s.pendingStdout.flatten
      let stderr := s.pendingStderr.flatten
      let reg1 := updateLive reg id { s with pendingStdout := [], pendingStderr := [] }
      let exitCode := s.exitCode.getD 0
      let exitSignal := s.exitSignal
      let statusOnExit : Status :=
        if exitCode = 0 ∧ exitSignal = none then .completed else .failed
      let reg2 := if s.exited then markExited reg1 id now s.exitCode s.exitSignal statusOnExit
                  else reg1
      let output := pollOutput stdout stderr
      ({ text := (if output = [] then "(no new output)".toList else output) ++
           (if s.exited then exitedWithText exitSignal exitCode
            else "\n\nProcess still running.".toList),
         status := if s.exited then statusOnExit else .running,
         exitCode := if s.exited then some exitCode else none }, reg2)

/-- The `log` action (bash-tools.ts 624-689): slice the aggregated output
of a live backgrounded or finished session by line, reporting total line
and character counts; a live non-backgrounded session is a failure; an
unknown id is a failure. -/
def logAction (reg : Registry) (id : String) (offset limit : Option Int) :
    ProcResult × Registry :=
  match getSession reg id with
  | some s =>
    if !s.backgrounded then
      ({ text := notBackgroundedText id, status := .failed }, reg)
    else
      let r := sliceLogLines s.aggregated offset limit
      ({ text := if r.slice = [] then "(no output yet)".toList else r.slice,
         status := if s.exited then .completed else .running,
         totalLines := some r.totalLines, totalChars := some r.totalChars }, reg)
  | none =>
    match getFinishedSession reg id with
    | some f =>
      let r := sliceLogLines f.aggregated offset limit
      ({ text := if r.slice = [] then "(no output recorded)".toList else r.slice,
         status := if f.status = .completed then .completed else .failed,
         totalLines := some r.totalLines, totalChars := some r.totalChars,
         exitCode := f.exitCode }, reg)
    | none => ({ text := noSessionText id, status := .failed }, reg)

/-- The `remove` action (bash-tools.ts 826-858): on a live session,
`killSession` then `markExited(session, null, "SIGKILL", "failed")`; on a
finished session, `deleteSession`; otherwise a failure.  Returns the
result, the updated registry, and the kill effects. -/
def removeAction (reg : Registry) (id : String) (now : Int) :
    ProcResult × Registry × List Effect :=
  match getSession reg id with
  | some s =>
    ({ text := removedText id, status := .failed },
      markExited reg id now none (some (.name "SIGKILL")) .failed,
      killSessionEffects s)
  | none =>
    match getFinishedSession reg id with
    | some _ =>
      ({ text := removedText id, status := .completed }, deleteSession reg id, [])
    | none => ({ text := noSessionText id, status := .failed }, reg, [])

/-! ### The bash tool's entry guard (bash-tools.ts 143-145) -/

/-- Outcome of the bash tool's argument guard: an empty command makes the
async `execute` throw (the returned promise rejects); otherwise execution
proceeds to spawn the command. -/
inductive BashEntry
  | throwsError (message : List Char)
  | proceeds
deriving DecidableEq

/-- `if (!params.command) { throw new Error("Provide a command to start."); }` -/
def bashCommandCheck (command : List Char) : BashEntry :=
  if command = [] then .throwsError ("Provide a command to start.".toList)
  else .proceeds

/-! ### Concrete inputs for witnesses and counterexamples -/

/-- A live session that has not been backgrounded. -/
def demoSession : Session :=
  { id := "s1", command := "sleep 99".toList, stdinMode := .pipe, hasPid := true,
    startedAt := 0, aggregated := "hi\n".toList, tail := "hi\n".toList,
    pendingStdout := [], pendingStderr := [], truncated := false,
    backgrounded := false, exited := false, exitCode := none, exitSignal := none }

/-- A registry holding only `demoSession`. -/
def demoReg : Registry := ⟨[demoSession], []⟩

/-- A finished session with CRLF-mixed output. -/
def demoFinished : FinishedSession :=
  { id := "f1", command := "printf x".toList, aggregated := "a\r\nb\nc".toList,
    tail := "a\r\nb\nc".toList, truncated := false, startedAt := 0, endedAt := 3,
    exitCode := some 0, exitSignal := none, status := .completed }

/-- A registry holding only `demoFinished`. -/
def demoFinReg : Registry := ⟨[], [demoFinished]⟩

/-! ### Lemmas: splitting and joining lines -/

theorem joinLF_cons_cons (l l' : List Char) (ls : List (List Char)) :
    joinLF (l :: l' :: ls) = l ++ '\n' :: joinLF (l' :: ls) := rfl

theorem joinLF_cons_head (c : Char) (l : List Char) (ls : List (List Char)) :
    joinLF ((c :: l) :: ls) = c :: joinLF (l :: ls) := by
  cases ls with
  | nil => rfl
  | cons l' ls' => rfl

theorem splitOnLF_ne_nil (s : List Char) : splitOnLF s ≠ [] := by
  cases s with
  | nil => simp [splitOnLF]
  | cons c rest =>
    simp only [splitOnLF]
    split
    · simp
    · split <;> simp

theorem joinLF_splitOnLF (s : List Char) : joinLF (splitOnLF s) = s := by
  induction s with
  | nil => rfl
  | cons c rest ih =>
    simp only [splitOnLF]
    by_cases h : c = '\n'
    · subst h
      rw [if_pos rfl]
      cases hr : splitOnLF rest with
      | nil => exact absurd hr (splitOnLF_ne_nil rest)
      | cons l ls =>
        rw [hr] at ih
        rw [joinLF_cons_cons, List.nil_append, ih]
    · rw [if_neg h]
      cases hr : splitOnLF rest with
      | nil => exact absurd hr (splitOnLF_ne_nil rest)
      | cons l ls =>
        rw [hr] at ih
        show joinLF ((c :: l) :: ls) = c :: rest
        rw [joinLF_cons_head, ih]

theorem lf_not_mem_splitOnLF (s : List Char) :
    ∀ l ∈ splitOnLF s, ('\n' : Char) ∉ l := by
  induction s with
  | nil =>
    intro l hl
    simp [splitOnLF] at hl
    subst hl
    simp
  | cons c rest ih =>
    intro l hl
    simp only [splitOnLF] at hl
    by_cases h : c = '\n'
    · subst h
      rw [if_pos rfl] at hl
      rcases List.mem_cons.mp hl with h1 | h1
      · subst h1; simp
      · exact ih l h1
    · rw [if_neg h] at hl
      cases hr : splitOnLF rest with
      | nil => exact absurd hr (splitOnLF_ne_nil rest)
      | cons m ms =>
        rw [hr] at hl
        rcases List.mem_cons.mp hl with h1 | h1
        · subst h1
          intro hmem
          rcases List.mem_cons.mp hmem with h2 | h2
          · exact h h2.symm
          · exact ih m (by rw [hr]; exact List.mem_cons_self m ms) h2
        · exact ih l (by rw [hr]; exact List.mem_cons.mpr (Or.inr h1))

theorem joinLF_append_single (ls : List (List Char)) (l : List Char) (h : ls ≠ []) :
    joinLF (ls ++ [l]) = joinLF ls ++ '\n' :: l := by
  induction ls with
  | nil => exact absurd rfl h
  | cons a as ih =>
    cases as with
    | nil => rfl
    | cons b bs =>
      have ih' := ih (by simp)
      rw [List.cons_append, List.cons_append, joinLF_cons_cons]
      rw [← List.cons_append, ih', joinLF_cons_cons, List.append_assoc]
      rfl

theorem getLast?_joinLF (ls : List (List Char)) (h : ls ≠ [])
    (hn : ls.getLast h ≠ []) : (joinLF ls).getLast? = (ls.getLast h).getLast? := by
  induction ls with
  | nil => exact absurd rfl h
  | cons a as ih =>
    cases as with
    | nil => rfl
    | cons b bs =>
      have hbs : b :: bs ≠ [] := by simp
      have hlast : (a :: b :: bs).getLast h = (b :: bs).getLast hbs :=
        List.getLast_cons hbs
      rw [hlast] at hn
      have ihbs := ih hbs hn
      have hjoin_ne : joinLF (b :: bs) ≠ [] := by
        intro hnil
        rw [hnil] at ihbs
        have hs : ((b :: bs).getLast hbs).getLast?.isSome :=
          List.getLast?_isSome.mpr hn
        rw [← ihbs] at hs
        simp at hs
      rw [joinLF_cons_cons, hlast,
        List.getLast?_append_of_ne_nil a
          (show ('\n' :: joinLF (b :: bs)) ≠ [] by simp)]
      have : ('\n' :: joinLF (b :: bs)) = ['\n'] ++ joinLF (b :: bs) := rfl
      rw [this, List.getLast?_append_of_ne_nil _ hjoin_ne, ihbs]

theorem joinLF_dropFinalEmpty (ls : List (List Char))
    (hmem : ∀ l ∈ ls, ('\n' : Char) ∉ l) :
    joinLF (dropFinalEmpty ls) = dropTrailingLF (joinLF ls) := by
  unfold dropFinalEmpty dropTrailingLF
  by_cases h : ls.getLast? = some []
  · rw [if_pos h]
    have hne : ls ≠ [] := by
      intro hnil
      subst hnil
      simp at h
    have hlast : ls.getLast hne = [] := by
      have heq := List.getLast?_eq_getLast ls hne
      exact Option.some.inj (heq.symm.trans h)
    have hdecomp : ls.dropLast ++ [[]] = ls := by
      have hd := List.dropLast_concat_getLast hne
      rw [hlast] at hd
      exact hd
    by_cases hdl : ls.dropLast = []
    · rw [hdl]
      rw [hdl] at hdecomp
      rw [← hdecomp]
      simp [joinLF]
    · conv_rhs => rw [← hdecomp]
      rw [joinLF_append_single _ _ hdl]
      have hconcat : joinLF ls.dropLast ++ '\n' :: ([] : List Char) =
          joinLF ls.dropLast ++ ['\n'] := rfl
      rw [hconcat, List.getLast?_concat]
      rw [if_pos rfl, List.dropLast_concat]
  · rw [if_neg h]
    by_cases hne : ls = []
    · subst hne
      simp [joinLF]
    · have hgl : ls.getLast hne ≠ [] := by
        intro hl
        apply h
        rw [List.getLast?_eq_getLast ls hne, hl]
      have hj := getLast?_joinLF ls hne hgl
      have hnc : (joinLF ls).getLast? ≠ some '\n' := by
        rw [hj]
        intro hcontra
        exact hmem _ (List.getLast_mem hne) (List.mem_of_getLast?_eq_some hcontra)
      rw [if_neg hnc]

theorem joinLF_logLines (text : List Char) :
    joinLF (logLines text) = dropTrailingLF (normalizeCRLF text) := by
  unfold logLines
  rw [joinLF_dropFinalEmpty _ (lf_not_mem_splitOnLF _), joinLF_splitOnLF]

theorem logLines_nil : logLines [] = [] := by
  simp [logLines, splitOnLF, normalizeCRLF, dropFinalEmpty]

theorem sliceLogLines_totalChars (t : List Char) (o l : Option Int) :
    (sliceLogLines t o l).totalChars = t.length := by
  unfold sliceLogLines
  split
  · rename_i ht
    subst ht
    rfl
  · rfl

theorem sliceLogLines_totalLines (t : List Char) (o l : Option Int) :
    (sliceLogLines t o l).totalLines = (logLines t).length := by
  unfold sliceLogLines
  split
  · rename_i ht
    subst ht
    rw [logLines_nil]
    rfl
  · rfl

theorem sliceLogLines_slice_none_none (t : List Char) :
    (sliceLogLines t none none).slice = joinLF (logLines t) := by
  unfold sliceLogLines
  split
  · rename_i ht
    subst ht
    rw [logLines_nil]
    rfl
  · show joinLF ((logLines t).drop 0) = joinLF (logLines t)
    rw [List.drop_zero]

theorem sliceLogLines_slice_some (t : List Char) (o : Int) (lim : Option Int) :
    (sliceLogLines t (some o) lim).slice =
      joinLF (takeOpt ((logLines t).drop o.toNat) lim) := by
  unfold sliceLogLines takeOpt
  split
  · rename_i ht
    subst ht
    rw [logLines_nil]
    cases lim <;> simp [joinLF]
  · cases lim <;> rfl

theorem sliceLogLines_slice_tail (t : List Char) (k : Int) :
    (sliceLogLines t none (some k)).slice = joinLF (lastN (logLines t) k.toNat) := by
  unfold sliceLogLines lastN
  split
  · rename_i ht
    subst ht
    rw [logLines_nil]
    simp [joinLF]
  · show joinLF (((logLines t).drop ((logLines t).length - Int.toNat k)).take k.toNat) =
      joinLF ((logLines t).drop ((logLines t).length - k.toNat))
    rw [List.take_of_length_le (by rw [List.length_drop]; omega)]

theorem splitOnLF_eq_splitOn (s : List Char) : splitOnLF s = s.splitOn '\n' := by
  induction s with
  | nil => rfl
  | cons c rest ih =>
    simp only [List.splitOn] at ih ⊢
    rw [List.splitOnP_cons]
    simp only [splitOnLF]
    by_cases h : c = '\n'
    · subst h
      rw [if_pos rfl, if_pos (by simp), ih]
    · rw [if_neg h, if_neg (by simp [h]), ← ih]
      cases hr : splitOnLF rest with
      | nil => exact absurd hr (splitOnLF_ne_nil rest)
      | cons m ms => simp

/-! ### Lemmas: the executor settlement machine -/

theorem step_none_of_settled (s : ExecState) (e : ExecEvent) (h : s.settled = true) :
    (step s e).2 = none := by
  cases e <;> simp only [step, h] <;> split <;> simp_all

theorem step_settled_eq (s : ExecState) (e : ExecEvent) :
    (step s e).1.settled = (s.settled || (step s e).2.isSome) := by
  cases e <;> simp only [step] <;> (try split) <;> (try split) <;> (try split) <;>
    simp_all

theorem runEvents_settled (s : ExecState) (evs : List ExecEvent) (h : s.settled = true) :
    (runEvents s evs).2 = [] := by
  induction evs generalizing s with
  | nil => rfl
  | cons e es ih =>
    have h1 := step_none_of_settled s e h
    have h2 : (step s e).1.settled = true := by
      rw [step_settled_eq, h, Bool.true_or]
    simp only [runEvents]
    rw [h1, ih _ h2]
    rfl

theorem runEvents_length_le_one (s : ExecState) (evs : List ExecEvent) :
    (runEvents s evs).2.length ≤ 1 := by
  induction evs generalizing s with
  | nil => exact Nat.zero_le 1
  | cons e es ih =>
    simp only [runEvents]
    cases ho : (step s e).2 with
    | none =>
      simpa using ih (step s e).1
    | some o =>
      have hset : (step s e).1.settled = true := by
        rw [step_settled_eq, ho]
        simp
      rw [runEvents_settled _ es hset]
      simp

theorem step_nonterminal (s : ExecState) (e : ExecEvent) (h : isTerminalEv e = false) :
    (step s e).2 = none ∧ (step s e).1.settled = s.settled ∧
    (step s e).1.yielded = s.yielded ∧ (step s e).1.backgrounded = s.backgrounded := by
  cases e <;> simp only [step, isTerminalEv] at h ⊢ <;> (try split) <;> simp_all

theorem step_terminal_ready (s : ExecState) (e : ExecEvent) (h0 : s.settled = false)
    (h1 : s.yielded = false) (h2 : s.backgrounded = false) (ht : isTerminalEv e = true) :
    (step s e).2.isSome = true := by
  cases e <;> simp only [step, isTerminalEv] at ht ⊢ <;> simp_all <;> split <;> simp

theorem runEvents_one_of_terminal (s : ExecState) (evs : List ExecEvent)
    (h0 : s.settled = false) (h1 : s.yielded = false) (h2 : s.backgrounded = false)
    (hterm : ∃ e ∈ evs, isTerminalEv e = true) :
    (runEvents s evs).2.length = 1 := by
  induction evs generalizing s with
  | nil =>
    rcases hterm with ⟨e, he, _⟩
    cases he
  | cons e es ih =>
    rcases hterm with ⟨t, htmem, htterm⟩
    simp only [runEvents]
    by_cases hte : isTerminalEv e = true
    · have hsome := step_terminal_ready s e h0 h1 h2 hte
      obtain ⟨o, ho⟩ := Option.isSome_iff_exists.mp hsome
      have hset : (step s e).1.settled = true := by
        rw [step_settled_eq, ho]
        simp
      rw [ho, runEvents_settled _ es hset]
      rfl
    · have hp := step_nonterminal s e (by simpa using hte)
      have hmem' : ∃ u ∈ es, isTerminalEv u = true := by
        rcases List.mem_cons.mp htmem with hh | hh
        · subst hh
          exact absurd htterm hte
        · exact ⟨t, hh, htterm⟩
      rw [hp.1]
      simpa using ih (step s e).1 (hp.2.1.trans h0) (hp.2.2.1.trans h1)
        (hp.2.2.2.trans h2) hmem'

/-! ### Lemmas: registry lookups -/

theorem find?_filter_not {α : Type} (p : α → Bool) (l : List α) :
    (l.filter (fun a => !(p a))).find? p = none := by
  induction l with
  | nil => rfl
  | cons a as ih =>
    rw [List.filter_cons]
    cases hp : p a
    · rw [if_pos (by simp [hp]), List.find?_cons, hp, ih]
    · rw [if_neg (by simp [hp]), ih]

theorem getSession_markExited_of_live (reg : Registry) (id : String) (now : Int)
    (code : Option Int) (sig : Option ExitSig) (st : Status) (s : Session)
    (hs : getSession reg id = some s) :
    getSession (markExited reg id now code sig st) id = none := by
  unfold markExited
  rw [hs]
  exact find?_filter_not _ _

theorem getFinishedSession_markExited_of_live (reg : Registry) (id : String) (now : Int)
    (code : Option Int) (sig : Option ExitSig) (st : Status) (s : Session)
    (hs : getSession reg id = some s) :
    getFinishedSession (markExited reg id now code sig st) id =
      some (finishOf s now code sig st) := by
  have hid : (s.id == id) = true := by
    have hs' : reg.live.find? (fun t => t.id == id) = some s := hs
    have h2 := List.find?_some hs'
    simpa using h2
  unfold markExited
  rw [hs]
  unfold getFinishedSession
  rw [List.find?_cons]
  simp only [finishOf]
  rw [hid]

theorem getSession_deleteSession (reg : Registry) (id : String) :
    getSession (deleteSession reg id) id = none :=
  find?_filter_not _ _

theorem getFinishedSession_deleteSession (reg : Registry) (id : String) :
    getFinishedSession (deleteSession reg id) id = none :=
  find?_filter_not _ _

theorem exitStatus_completed_iff (code : Option Int) (sig : Option ExitSig) (a t : Bool) :
    exitStatus code sig a t = .completed ↔
      (code = some 0 ∧ sig = none ∧ a = false ∧ t = false) := by
  cases a <;> cases t <;> cases sig <;>
    simp [exitStatus, isSuccess, wasSignal] <;>
    (try split) <;> simp_all

theorem step_exit_status (s : ExecState) (code : Option Int) (sig : Option ExitSig) :
    (step s (.exit code sig)).1.status =
      some (exitStatus code sig s.aborted s.timedOut) := by
  simp only [step]
  split
  · rfl
  · split
    · rfl
    · split <;> rfl

/-- Claim C5: upon process exit the recorded status is `completed` if and
only if the exit code equals 0, the exit signal is null, the external
abort signal did not fire, and the timeout did not fire; in every other
case the status is `failed`. -/
theorem c5_exit_status_classification (s : ExecState) (code : Option Int)
    (sig : Option ExitSig) :
    ((step s (.exit code sig)).1.status = some Status.completed ↔
      code = some 0 ∧ sig = none ∧ s.aborted = false ∧ s.timedOut = false) ∧
    ((step s (.exit code sig)).1.status = some Status.failed ↔
      ¬(code = some 0 ∧ sig = none ∧ s.aborted = false ∧ s.timedOut = false)) := by
  rw [step_exit_status]
  constructor
  · rw [← exitStatus_completed_iff code sig s.aborted s.timedOut]
    constructor
    · exact fun h => Option.some.inj h
    · exact fun h => congrArg some h
  · rw [← exitStatus_completed_iff code sig s.aborted s.timedOut]
    unfold exitStatus
    split
    · simp
    · simp

/-- Claim C1: for a bash invocation that has not been backgrounded and
whose run ends non-successfully, the executor settles the call with a
failure whose reason is chosen in strict priority order: timeout message,
then signal name, then aborted-before-exit-code, then exited-with-code.  -/
theorem c1_failure_reason_priority (s : ExecState) (code : Option Int)
    (sig : Option ExitSig) (hy : s.yielded = false) (hb : s.backgrounded = false)
    (hs : s.settled = false)
    (hfail : isSuccess code sig s.aborted s.timedOut = false) :
    (step s (.exit code sig)).2 = some (.failure (failMessage (trimChars s.aggregated)
      (failureReason s.timedOut s.effectiveTimeout code sig))) ∧
    (s.timedOut = true →
      failureReason s.timedOut s.effectiveTimeout code sig =
        timeoutReason s.effectiveTimeout) ∧
    (∀ g, s.timedOut = false → sig = some g → sigTruthy (some g) = true →
      failureReason s.timedOut s.effectiveTimeout code sig = signalReason g) ∧
    (s.timedOut = false → sigTruthy sig = false → code = none →
      failureReason s.timedOut s.effectiveTimeout code sig = abortedReason) ∧
    (∀ c, s.timedOut = false → sigTruthy sig = false → code = some c →
      failureReason s.timedOut s.effectiveTimeout code sig = exitCodeReason c) := by
  refine ⟨?_, ?_, ?_, ?_, ?_⟩
  · simp [step, hy, hb, hs, hfail]
  · intro ht
    simp [failureReason, ht]
  · intro g ht hg htr
    subst hg
    simp [failureReason, ht, htr]
  · intro ht htr hc
    subst hc
    cases hg : sig with
    | none => simp [failureReason, ht, codeFallback]
    | some g =>
      rw [hg] at htr
      simp [failureReason, ht, htr, codeFallback]
  · intro c ht htr hc
    subst hc
    cases hg : sig with
    | none => simp [failureReason, ht, codeFallback]
    | some g =>
      rw [hg] at htr
      simp [failureReason, ht, htr, codeFallback]

theorem c1_witness :
    (step (execInit none 1800) (ExecEvent.exit (some 2) none)).2 =
      some (Settlement.failure (failMessage (trimChars (execInit none 1800).aggregated)
        (failureReason (execInit none 1800).timedOut
          (execInit none 1800).effectiveTimeout (some 2) none))) :=
  (c1_failure_reason_priority (execInit none 1800) (some 2) none rfl rfl rfl
    (by decide)).1

/-- Claim C4 counterexample: calling the bash tool with an empty command
does not surface a failure result — the execute entry throws an Error
(the call rejects) at the concrete input `""`. -/
theorem c4_counterexample :
    bashCommandCheck "".toList =
      BashEntry.throwsError ("Provide a command to start.".toList) := rfl

/-- Claim C4 (amended): a call with an empty `command` makes the bash
tool throw an Error carrying the explanatory text "Provide a command to
start." (surfacing to the caller as a rejected call), rather than
returning a failure result; no other command triggers this throw. -/
theorem c4_empty_command_throws (command : List Char) :
    bashCommandCheck command =
      BashEntry.throwsError ("Provide a command to start.".toList) ↔ command = [] := by
  unfold bashCommandCheck
  split
  · rename_i h
    simp [h]
  · rename_i h
    simp [h]

/-- Claim C10: the reported `totalChars` equals the length of the raw
text before CRLF normalization, and `totalLines` is the number of
segments obtained by normalizing CRLF to LF, splitting on LF, and
dropping one final empty segment when present (so a single trailing
newline contributes no counted line). -/
theorem c10_totals (text : List Char) (offset limit : Option Int) :
    (sliceLogLines text offset limit).totalChars = text.length ∧
    (sliceLogLines text offset limit).totalLines =
      (dropFinalEmpty ((normalizeCRLF text).splitOn '\n')).length := by
  refine ⟨sliceLogLines_totalChars _ _ _, ?_⟩
  rw [sliceLogLines_totalLines]
  unfold logLines
  rw [splitOnLF_eq_splitOn]

/-- Claim C2: for every bash invocation exactly one terminal settlement
occurs — from the initial state any event sequence containing a yield or
exit event fires exactly one settlement, at most one settlement fires over
any event sequence, once settled every later event is a no-op for the
caller, and output capture still appends arriving chunks until exit. -/
theorem c2_single_settlement (w : Option (List Char)) (t : Int) (evs : List ExecEvent)
    (hterm : ∃ e ∈ evs, isTerminalEv e = true) :
    (runEvents (execInit w t) evs).2.length = 1 ∧
    (∀ evs2, (runEvents (execInit w t) evs2).2.length ≤ 1) ∧
    (∀ s e, s.settled = true → (step s e).2 = none) ∧
    (∀ s c, s.settled = true → s.exited = false →
      (step s (.data c)).1.aggregated = s.aggregated ++ c) := by
  refine ⟨runEvents_one_of_terminal _ evs rfl rfl rfl hterm,
    fun evs2 => runEvents_length_le_one _ evs2, step_none_of_settled, ?_⟩
  intro s c _ he
  simp [step, he]

theorem c2_witness :
    (runEvents (execInit none 1800)
      [ExecEvent.data "a".toList, ExecEvent.exit (some 0) none]).2.length = 1 :=
  (c2_single_settlement none 1800
    [ExecEvent.data "a".toList, ExecEvent.exit (some 0) none]
    ⟨ExecEvent.exit (some 0) none, by decide, rfl⟩).1

/-- Claim C6: a `poll` on a live session that has not been backgrounded
returns a failure result with a clear message and leaves the registry —
and hence the session and its pending buffers — untouched. -/
theorem c6_poll_not_backgrounded (reg : Registry) (id : String) (now : Int)
    (s : Session) (hs : getSession reg id = some s) (hb : s.backgrounded = false) :
    pollAction reg id now =
      ({ text := notBackgroundedText id, status := .failed }, reg) := by
  unfold pollAction
  rw [hs]
  simp [hb]

theorem c6_witness :
    pollAction demoReg "s1" 0 =
      ({ text := notBackgroundedText "s1", status := .failed }, demoReg) :=
  c6_poll_not_backgrounded demoReg "s1" 0 demoSession rfl rfl

/-- Claim C9: for a finished session with aggregated output O, `log` with
offset 0 and no limit returns O line-normalized — CRLF pairs replaced by
LF, lines rejoined in order, without a trailing empty line. -/
theorem c9_log_roundtrip (reg : Registry) (id : String) (f : FinishedSession)
    (hl : getSession reg id = none) (hf : getFinishedSession reg id = some f) :
    (sliceLogLines f.aggregated (some 0) none).slice =
      dropTrailingLF (normalizeCRLF f.aggregated) ∧
    (dropTrailingLF (normalizeCRLF f.aggregated) ≠ [] →
      (logAction reg id (some 0) none).1.text =
        dropTrailingLF (normalizeCRLF f.aggregated)) := by
  have hslice : (sliceLogLines f.aggregated (some 0) none).slice =
      dropTrailingLF (normalizeCRLF f.aggregated) := by
    rw [sliceLogLines_slice_some]
    show joinLF ((logLines f.aggregated).drop (Int.toNat 0)) =
      dropTrailingLF (normalizeCRLF f.aggregated)
    rw [Int.toNat_zero, List.drop_zero, joinLF_logLines]
  refine ⟨hslice, fun hne => ?_⟩
  unfold logAction
  rw [hl, hf]
  simp only []
  rw [hslice, if_neg hne]

theorem c9_witness :
    (sliceLogLines demoFinished.aggregated (some 0) none).slice =
      dropTrailingLF (normalizeCRLF demoFinished.aggregated) ∧
    (dropTrailingLF (normalizeCRLF demoFinished.aggregated) ≠ [] →
      (logAction demoFinReg "f1" (some 0) none).1.text =
        dropTrailingLF (normalizeCRLF demoFinished.aggregated)) :=
  c9_log_roundtrip demoFinReg "f1" demoFinished rfl rfl

theorem startsWithText_append (p w x : List Char) (h : startsWithText p w) :
    startsWithText p (w ++ x) := by
  obtain ⟨u, hu⟩ := h
  exact ⟨u ++ x, by rw [← List.append_assoc, hu]⟩

theorem startsWithText_successText (p w agg : List Char)
    (h : startsWithText p w) : startsWithText p (successText (some w) agg) := by
  unfold successText
  exact startsWithText_append _ _ _ (startsWithText_append _ _ _ h)

/-- Claim C8: for a bash invocation with `stdinMode = pty` whose PTY
backend fails to load or to spawn, a user-visible warning is recorded
whose text contains "falling back to pipe mode.", execution proceeds in
`pipe` mode, and the success result text begins with "Warning: " followed
by the command's output. -/
theorem c8_pty_fallback (loadOk spawnOk : Bool) (loadErr spawnErr : Option (List Char))
    (agg : List Char) (hfail : loadOk = false ∨ spawnOk = false) :
    (ptyStartup .pty loadOk loadErr spawnOk spawnErr).1 = .pipe ∧
    ∃ w, (ptyStartup .pty loadOk loadErr spawnOk spawnErr).2 = some w ∧
      containsText ("falling back to pipe mode.".toList) w ∧
      startsWithText ("Warning: ".toList) w ∧
      startsWithText ("Warning: ".toList) (successText (some w) agg) ∧
      (agg ≠ [] → successText (some w) agg = w ++ "\n\n".toList ++ agg) := by
  have hsw : "; falling back to pipe mode.".toList =
      "; ".toList ++ "falling back to pipe mode.".toList := by decide
  have hload : "Warning: node-pty failed to load".toList =
      "Warning: ".toList ++ "node-pty failed to load".toList := by decide
  have hstart : "Warning: node-pty failed to start".toList =
      "Warning: ".toList ++ "node-pty failed to start".toList := by decide
  have hafter : ∀ (pre err : List Char),
      containsText ("falling back to pipe mode.".toList)
        (pre ++ err ++ "; falling back to pipe mode.".toList) := by
    intro pre err
    refine ⟨pre ++ err ++ "; ".toList, [], ?_⟩
    rw [hsw]
    simp [List.append_assoc]
  have hsucc : ∀ w agg2, agg2 ≠ [] →
      successText (some w) agg2 = w ++ "\n\n".toList ++ agg2 := by
    intro w agg2 hne
    simp [successText, hne, List.append_assoc]
  cases loadOk with
  | false =>
    refine ⟨rfl, "Warning: node-pty failed to load".toList ++ formatPtyError loadErr ++
      "; falling back to pipe mode.".toList, rfl, hafter _ _, ?_, ?_, hsucc _ agg⟩
    · refine ⟨"node-pty failed to load".toList ++ formatPtyError loadErr ++
        "; falling back to pipe mode.".toList, ?_⟩
      rw [hload]
      simp [List.append_assoc]
    · apply startsWithText_successText
      refine ⟨"node-pty failed to load".toList ++ formatPtyError loadErr ++
        "; falling back to pipe mode.".toList, ?_⟩
      rw [hload]
      simp [List.append_assoc]
  | true =>
    have hsp : spawnOk = false := by
      rcases hfail with h | h
      · exact absurd h (by simp)
      · exact h
    subst hsp
    refine ⟨rfl, "Warning: node-pty failed to start".toList ++ formatPtyError spawnErr ++
      "; falling back to pipe mode.".toList, rfl, hafter _ _, ?_, ?_, hsucc _ agg⟩
    · refine ⟨"node-pty failed to start".toList ++ formatPtyError spawnErr ++
        "; falling back to pipe mode.".toList, ?_⟩
      rw [hstart]
      simp [List.append_assoc]
    · apply startsWithText_successText
      refine ⟨"node-pty failed to start".toList ++ formatPtyError spawnErr ++
        "; falling back to pipe mode.".toList, ?_⟩
      rw [hstart]
      simp [List.append_assoc]

theorem c8_witness :
    (ptyStartup .pty false none true none).1 = .pipe ∧
    ∃ w, (ptyStartup .pty false none true none).2 = some w ∧
      containsText ("falling back to pipe mode.".toList) w ∧
      startsWithText ("Warning: ".toList) w ∧
      startsWithText ("Warning: ".toList) (successText (some w) ("ok".toList)) ∧
      ("ok".toList ≠ [] → successText (some w) ("ok".toList) =
        w ++ "\n\n".toList ++ "ok".toList) :=
  c8_pty_fallback false true none none ("ok".toList) (Or.inl rfl)

/-- Claim C7: for a `log` action on an existing session (a backgrounded
live one or a finished one), the returned slice is the last `limit` lines
when `offset` is absent and `limit` present, and otherwise the lines
`[offset, offset+limit)` (all lines from `offset` on when `limit` is
absent, offset defaulting to 0); the result reports the total line count
and total character count, and the registry is unchanged. -/
theorem c7_log_slice_semantics (reg : Registry) (id : String)
    (offset limit : Option Int) (agg : List Char)
    (h : (∃ s, getSession reg id = some s ∧ s.backgrounded = true ∧
            s.aggregated = agg) ∨
         (getSession reg id = none ∧
           ∃ f, getFinishedSession reg id = some f ∧ f.aggregated = agg)) :
    (logAction reg id offset limit).1.totalLines = some (logLines agg).length ∧
    (logAction reg id offset limit).1.totalChars = some agg.length ∧
    (∀ k, offset = none → limit = some k →
      (sliceLogLines agg offset limit).slice = joinLF (lastN (logLines agg) k.toNat)) ∧
    (∀ o, offset = some o →
      (sliceLogLines agg offset limit).slice =
        joinLF (takeOpt ((logLines agg).drop o.toNat) limit)) ∧
    (offset = none → limit = none →
      (sliceLogLines agg offset limit).slice = joinLF (logLines agg)) ∧
    ((sliceLogLines agg offset limit).slice ≠ [] →
      (logAction reg id offset limit).1.text = (sliceLogLines agg offset limit).slice) ∧
    (logAction reg id offset limit).2 = reg := by
  have hres : (logAction reg id offset limit).1.totalLines =
      some (sliceLogLines agg offset limit).totalLines ∧
      (logAction reg id offset limit).1.totalChars =
        some (sliceLogLines agg offset limit).totalChars ∧
      ((sliceLogLines agg offset limit).slice ≠ [] →
        (logAction reg id offset limit).1.text =
          (sliceLogLines agg offset limit).slice) ∧
      (logAction reg id offset limit).2 = reg := by
    rcases h with ⟨s, hs, hb, ha⟩ | ⟨hn, f, hf, ha⟩
    · subst ha
      unfold logAction
      rw [hs]
      simp only [hb, Bool.not_true, Bool.false_eq_true, if_false]
      refine ⟨trivial, trivial, fun hne => ?_, trivial⟩
      simp only [if_neg hne]
    · subst ha
      unfold logAction
      rw [hn, hf]
      refine ⟨rfl, rfl, fun hne => ?_, rfl⟩
      simp only [if_neg hne]
  refine ⟨?_, ?_, ?_, ?_, ?_, hres.2.2.1, hres.2.2.2⟩
  · rw [hres.1, sliceLogLines_totalLines]
  · rw [hres.2.1, sliceLogLines_totalChars]
  · intro k ho hl
    subst ho
    subst hl
    exact sliceLogLines_slice_tail agg k
  · intro o ho
    subst ho
    exact sliceLogLines_slice_some agg o limit
  · intro ho hl
    subst ho
    subst hl
    exact sliceLogLines_slice_none_none agg

theorem c7_witness :
    (logAction demoFinReg "f1" none (some 1)).1.totalLines =
      some (logLines demoFinished.aggregated).length ∧
    (logAction demoFinReg "f1" none (some 1)).1.totalChars =
      some demoFinished.aggregated.length ∧
    (∀ k, (none : Option Int) = none → (some (1 : Int)) = some k →
      (sliceLogLines demoFinished.aggregated none (some 1)).slice =
        joinLF (lastN (logLines demoFinished.aggregated) k.toNat)) ∧
    (∀ o, (none : Option Int) = some o →
      (sliceLogLines demoFinished.aggregated none (some 1)).slice =
        joinLF (takeOpt ((logLines demoFinished.aggregated).drop o.toNat) (some 1))) ∧
    ((none : Option Int) = none → (some (1 : Int)) = none →
      (sliceLogLines demoFinished.aggregated none (some 1)).slice =
        joinLF (logLines demoFinished.aggregated)) ∧
    ((sliceLogLines demoFinished.aggregated none (some 1)).slice ≠ [] →
      (logAction demoFinReg "f1" none (some 1)).1.text =
        (sliceLogLines demoFinished.aggregated none (some 1)).slice) ∧
    (logAction demoFinReg "f1" none (some 1)).2 = demoFinReg :=
  c7_log_slice_semantics demoFinReg "f1" none (some 1) demoFinished.aggregated
    (Or.inr ⟨rfl, demoFinished, rfl, rfl⟩)

/-- Claim C3 counterexample: `remove` on a live session does not delete
the session from the registry — at the concrete registry holding one live
session, after `remove` the process tree is killed and the session is gone
from the live set, yet it is still present in the finished store. -/
theorem c3_remove_counterexample :
    Effect.killTree ∈ (removeAction demoReg "s1" 5).2.2 ∧
    getSession (removeAction demoReg "s1" 5).2.1 "s1" = none ∧
    getFinishedSession (removeAction demoReg "s1" 5).2.1 "s1" ≠ none := by
  decide

/-- Claim C3 (amended): for a `process` call with action `remove`: on a
live session the controller kills the process tree and records the
session as exited (signal SIGKILL, status failed), which moves it from the
live set to the finished store rather than deleting it; on a finished
session it deletes the stored session; when neither exists it returns a
failure result and leaves the registry unchanged. -/
theorem c3_remove_semantics (reg : Registry) (id : String) (now : Int) :
    (∀ s, getSession reg id = some s →
      (removeAction reg id now).2.2 = killSessionEffects s ∧
      getSession (removeAction reg id now).2.1 id = none ∧
      getFinishedSession (removeAction reg id now).2.1 id =
        some (finishOf s now none (some (.name "SIGKILL")) .failed) ∧
      (removeAction reg id now).1.status = .failed) ∧
    (getSession reg id = none → ∀ f, getFinishedSession reg id = some f →
      getSession (removeAction reg id now).2.1 id = none ∧
      getFinishedSession (removeAction reg id now).2.1 id = none ∧
      (removeAction reg id now).1.status = .completed ∧
      (removeAction reg id now).2.2 = []) ∧
    (getSession reg id = none → getFinishedSession reg id = none →
      (removeAction reg id now).2.1 = reg ∧
      (removeAction reg id now).1.status = .failed ∧
      (removeAction reg id now).2.2 = []) := by
  refine ⟨?_, ?_, ?_⟩
  · intro s hs
    unfold removeAction
    rw [hs]
    exact ⟨rfl, getSession_markExited_of_live reg id now none _ _ s hs,
      getFinishedSession_markExited_of_live reg id now none _ _ s hs, rfl⟩
  · intro hn f hf
    unfold removeAction
    rw [hn, hf]
    exact ⟨getSession_deleteSession reg id, getFinishedSession_deleteSession reg id,
      rfl, rfl⟩
  · intro hn hf
    unfold removeAction
    rw [hn, hf]
    exact ⟨rfl, rfl, rfl⟩

theorem c3_witness :
    (removeAction demoReg "s1" 5).2.2 = killSessionEffects demoSession ∧
    getSession (removeAction demoReg "s1" 5).2.1 "s1" = none ∧
    getFinishedSession (removeAction demoReg "s1" 5).2.1 "s1" =
      some (finishOf demoSession 5 none (some (.name "SIGKILL")) .failed) ∧
    (removeAction demoReg "s1" 5).1.status = .failed :=
  (c3_remove_semantics demoReg "s1" 5).1 demoSession rfl

end OpenClawBash
